import Mathlib

/-!
Verification development for the minimodem duplex soft modem
(src/minimodem/modem.py).

The framing layer works on byte strings; bytes are modelled as natural
numbers and byte strings as lists of naturals.  The HDLC flags are the
literal byte values of the Python constants:
  HDLC.START = b"|->"  = [124, 45, 62]
  HDLC.STOP  = b"<-|"  = [60, 45, 124]

Python string-search primitives (bytes.find, the in operator, bytes.rfind)
are embedded as executable functions over lists, and the body of
Modem._rx_loop is embedded as a step function on the receive buffer.
-/

namespace Minimodem

/-- HDLC.START, the frame start flag b"|->". -/
def START : List Nat := [124, 45, 62]

/-- HDLC.STOP, the frame stop flag b"<-|". -/
def STOP : List Nat := [60, 45, 124]

/-- Pattern pat occurs in s at index i (the window of bytes of s starting
at index i equals pat). -/
def occursAt (pat s : List Nat) (i : Nat) : Bool :=
  decide ((s.drop i).take pat.length = pat)

/-- Index of the first occurrence of pat in l, scanning left to right
(helper for the embedding of Python bytes.find). -/
def findIn (pat : List Nat) : List Nat → Option Nat
  | [] => if occursAt pat [] 0 then some 0 else none
  | a :: t => if occursAt pat (a :: t) 0 then some 0
              else (findIn pat t).map (fun j => j + 1)

/-- Python data.find(pat, i): index of the first occurrence of pat in s at
an index at least i, or none (Python returns -1) when there is none.
Python data.find(pat) is findFrom pat s 0, and (pat in data) holds exactly
when findFrom pat s 0 is some index. -/
def findFrom (pat s : List Nat) (i : Nat) : Option Nat :=
  (findIn pat (s.drop i)).map (fun j => j + i)

/-- Last index below n at which pat occurs in s (helper for rfind). -/
def rfindBelow (pat s : List Nat) : Nat → Option Nat
  | 0 => none
  | n + 1 => if occursAt pat s n then some n else rfindBelow pat s n

/-- Python data.rfind(pat): index of the last occurrence of pat in s,
or none (Python returns -1) when there is none. -/
def rfind (pat s : List Nat) : Option Nat :=
  rfindBelow pat s s.length

/-- One application of the framing rules in the body of Modem._rx_loop to
the accumulated buffer (the part of the loop body after the blocking
receive).  Returns the new buffer and the payload passed to the receive
callback, when one is delivered in this pass.

Mirrors src/minimodem/modem.py lines 298-327:
  if HDLC.START in data_buffer:
      if HDLC.STOP in data_buffer:
          start = data_buffer.find(HDLC.START) + len(HDLC.START)
          end = data_buffer.find(HDLC.STOP, start)
          if end > start:
              data = data_buffer[start:end]
              data_buffer = data_buffer[end + len(HDLC.STOP):]
              if len(data) <= self.MTU: rx_callback(data)
          else:
              data_buffer = data_buffer[start + len(HDLC.START):]
      else:
          if len(data_buffer) > self.MTU:
              data_buffer = data_buffer[data_buffer.rfind(HDLC.START):]
  else:
      if len(data_buffer) > 10 * len(HDLC.START):
          data_buffer = b""
(A Python find miss returns -1, so "end > start" is false on a miss, and
"data_buffer[-1:]" keeps the last byte; the rfind miss branch is
unreachable because START is in the buffer there.) -/
def rxStep (mtu : Nat) (buf : List Nat) : List Nat × Option (List Nat) :=
  match findFrom START buf 0 with
  | some s0 =>
    match findFrom STOP buf 0 with
    | some _ =>
      let start := s0 + START.length
      match findFrom STOP buf start with
      | some e =>
        if start < e then
          let data := (buf.take e).drop start
          let buf2 := buf.drop (e + STOP.length)
          if data.length ≤ mtu then (buf2, some data) else (buf2, none)
        else (buf.drop (start + START.length), none)
      | none => (buf.drop (start + START.length), none)
    | none =>
      if buf.length > mtu then
        match rfind START buf with
        | some r => (buf.drop r, none)
        | none => (buf.drop (buf.length - 1), none)
      else (buf, none)
  | none =>
    if buf.length > 10 * START.length then ([], none) else (buf, none)

/-- Modem._receive: one byte is read from the RX channel and validated by
attempting a UTF-8 decode of that single byte; on a UnicodeDecodeError the
empty byte string is returned instead.  A lone byte decodes as UTF-8
exactly when it is below 0x80 (bytes 0x80-0xBF are continuation bytes and
0xC0-0xFF are incomplete multi-byte heads, all of which raise). -/
def validate (b : Nat) : List Nat := if b < 128 then [b] else []

/-- One iteration of the while loop of Modem._rx_loop: read and validate
one byte, append it to the buffer, then apply the framing rules once. -/
def rxPass (mtu : Nat) (buf : List Nat) (b : Nat) : List Nat × Option (List Nat) :=
  rxStep mtu (buf ++ validate b)

/-- Run the receive loop over a finite stream of raw input bytes, starting
from buffer buf.  Returns the final buffer and the list of payloads
delivered to the receive callback, in delivery order. -/
def rxRun (mtu : Nat) (buf : List Nat) : List Nat → List Nat × List (List Nat)
  | [] => (buf, [])
  | b :: s =>
    let p := rxPass mtu buf b
    let r := rxRun mtu p.1 s
    (r.1, p.2.toList ++ r.2)

/-! Characterizations of the search primitives. -/

theorem START_length : START.length = 3 := rfl

theorem STOP_length : STOP.length = 3 := rfl

theorem occursAt_true_iff {pat s : List Nat} {i : Nat} :
    occursAt pat s i = true ↔ ∃ t, s.drop i = pat ++ t := by
  unfold occursAt
  rw [decide_eq_true_eq]
  constructor
  · intro h
    refine ⟨(s.drop i).drop pat.length, ?_⟩
    conv_lhs => rw [← List.take_append_drop pat.length (s.drop i)]
    rw [h]
  · rintro ⟨t, ht⟩
    rw [ht]
    exact List.take_left pat t

theorem occursAt_false_iff {pat s : List Nat} {i : Nat} :
    occursAt pat s i = false ↔ ∀ t, s.drop i ≠ pat ++ t := by
  rw [← Bool.not_eq_true, occursAt_true_iff]
  push_neg
  rfl

theorem occursAt_cons_succ {pat : List Nat} {a : Nat} {l : List Nat} {j : Nat} :
    occursAt pat (a :: l) (j + 1) = occursAt pat l j := rfl

theorem occursAt_start_shift {pat M : List Nat} {j : Nat} :
    occursAt pat (START ++ M) (j + 3) = occursAt pat M j := rfl

theorem occursAt_length {pat s : List Nat} {i : Nat} (hp : pat ≠ [])
    (h : occursAt pat s i = true) : i + pat.length ≤ s.length := by
  obtain ⟨t, ht⟩ := occursAt_true_iff.mp h
  have hlen : s.length - i = pat.length + t.length := by
    rw [← List.length_drop, ht, List.length_append]
  have hp2 : 0 < pat.length := List.length_pos.mpr hp
  omega

theorem occursAt_append_left {pat X Y : List Nat} {i : Nat}
    (h : occursAt pat X i = true) : occursAt pat (X ++ Y) i = true := by
  obtain ⟨t, ht⟩ := occursAt_true_iff.mp h
  refine occursAt_true_iff.mpr ⟨t ++ Y.drop (i - X.length), ?_⟩
  rw [List.drop_append_eq_append_drop, ht, List.append_assoc]

theorem occursAt_append_right {pat X Y : List Nat} {j : Nat}
    (h : occursAt pat Y j = true) : occursAt pat (X ++ Y) (X.length + j) = true := by
  obtain ⟨t, ht⟩ := occursAt_true_iff.mp h
  refine occursAt_true_iff.mpr ⟨t, ?_⟩
  rw [List.drop_append_eq_append_drop]
  have h1 : X.drop (X.length + j) = [] := by
    apply List.drop_eq_nil_of_le
    omega
  rw [h1, List.nil_append, Nat.add_sub_cancel_left]
  exact ht

theorem findIn_eq_some_iff {pat : List Nat} (hp : pat ≠ []) :
    ∀ {l : List Nat} {j : Nat},
      findIn pat l = some j ↔
        occursAt pat l j = true ∧ ∀ k, k < j → occursAt pat l k = false := by
  intro l
  induction l with
  | nil =>
    intro j
    have h0 : ∀ m, occursAt pat [] m = false := by
      intro m
      rw [occursAt_false_iff]
      intro t ht
      rw [List.drop_nil] at ht
      exact hp (List.append_eq_nil.mp ht.symm).1
    unfold findIn
    rw [if_neg (by simp [h0 0])]
    simp [h0 j]
  | cons a t ih =>
    intro j
    unfold findIn
    by_cases h0 : occursAt pat (a :: t) 0 = true
    · rw [if_pos h0]
      constructor
      · intro h
        injection h with h
        subst h
        exact ⟨h0, fun k hk => absurd hk (Nat.not_lt_zero k)⟩
      · rintro ⟨hj, hmin⟩
        cases j with
        | zero => rfl
        | succ j =>
          rw [hmin 0 (Nat.succ_pos j)] at h0
          exact absurd h0 (by simp)
    · rw [if_neg h0]
      have h0f : occursAt pat (a :: t) 0 = false := by
        cases hx : occursAt pat (a :: t) 0
        · rfl
        · exact absurd hx h0
      constructor
      · intro h
        obtain ⟨j0, hj0, hje⟩ := Option.map_eq_some'.mp h
        subst hje
        obtain ⟨hocc, hmin⟩ := ih.mp hj0
        refine ⟨by rw [occursAt_cons_succ]; exact hocc, ?_⟩
        intro k hk
        cases k with
        | zero => exact h0f
        | succ k => rw [occursAt_cons_succ]; exact hmin k (by omega)
      · rintro ⟨hocc, hmin⟩
        cases j with
        | zero => exact absurd hocc h0
        | succ j =>
          rw [occursAt_cons_succ] at hocc
          have hft : findIn pat t = some j := by
            apply ih.mpr
            refine ⟨hocc, fun k hk => ?_⟩
            have := hmin (k + 1) (by omega)
            rwa [occursAt_cons_succ] at this
          rw [hft]
          rfl

theorem findIn_eq_none_iff {pat : List Nat} (hp : pat ≠ []) :
    ∀ {l : List Nat}, findIn pat l = none ↔ ∀ j, occursAt pat l j = false := by
  intro l
  induction l with
  | nil =>
    have h0 : ∀ m, occursAt pat [] m = false := by
      intro m
      rw [occursAt_false_iff]
      intro t ht
      rw [List.drop_nil] at ht
      exact hp (List.append_eq_nil.mp ht.symm).1
    unfold findIn
    rw [if_neg (by simp [h0 0])]
    simp [h0]
  | cons a t ih =>
    unfold findIn
    by_cases h0 : occursAt pat (a :: t) 0 = true
    · rw [if_pos h0]
      simp only [reduceCtorEq, false_iff, not_forall]
      exact ⟨0, by simp [h0]⟩
    · rw [if_neg h0]
      have h0f : occursAt pat (a :: t) 0 = false := by
        cases hx : occursAt pat (a :: t) 0
        · rfl
        · exact absurd hx h0
      rw [Option.map_eq_none', ih]
      constructor
      · intro h j
        cases j with
        | zero => exact h0f
        | succ j => rw [occursAt_cons_succ]; exact h j
      · intro h j
        have := h (j + 1)
        rwa [occursAt_cons_succ] at this

theorem occursAt_drop {pat s : List Nat} {i j : Nat} :
    occursAt pat (s.drop i) j = occursAt pat s (i + j) := by
  unfold occursAt
  rw [List.drop_drop]

theorem findFrom_eq_some_iff {pat s : List Nat} {i j : Nat} (hp : pat ≠ []) :
    findFrom pat s i = some j ↔
      i ≤ j ∧ occursAt pat s j = true ∧
        ∀ k, i ≤ k → k < j → occursAt pat s k = false := by
  unfold findFrom
  rw [Option.map_eq_some']
  constructor
  · rintro ⟨j0, hj0, hje⟩
    subst hje
    obtain ⟨hocc, hmin⟩ := (findIn_eq_some_iff hp).mp hj0
    rw [occursAt_drop] at hocc
    refine ⟨by omega, by rwa [Nat.add_comm] at hocc, ?_⟩
    intro k hik hkj
    have hh := hmin (k - i) (by omega)
    rw [occursAt_drop] at hh
    rwa [Nat.add_sub_cancel' hik] at hh
  · rintro ⟨hij, hocc, hmin⟩
    refine ⟨j - i, ?_, by omega⟩
    apply (findIn_eq_some_iff hp).mpr
    constructor
    · rw [occursAt_drop, Nat.add_sub_cancel' hij]
      exact hocc
    · intro k hk
      rw [occursAt_drop]
      exact hmin (i + k) (by omega) (by omega)

theorem findFrom_eq_none_iff {pat s : List Nat} {i : Nat} (hp : pat ≠ []) :
    findFrom pat s i = none ↔ ∀ j, i ≤ j → occursAt pat s j = false := by
  unfold findFrom
  rw [Option.map_eq_none', findIn_eq_none_iff hp]
  constructor
  · intro h j hij
    have hh := h (j - i)
    rwa [occursAt_drop, Nat.add_sub_cancel' hij] at hh
  · intro h j
    rw [occursAt_drop]
    exact h (i + j) (by omega)

theorem rfindBelow_eq_some_of {pat s : List Nat} {j : Nat} :
    ∀ {n : Nat}, j < n → occursAt pat s j = true →
      (∀ k, j < k → k < n → occursAt pat s k = false) →
      rfindBelow pat s n = some j := by
  intro n
  induction n with
  | zero => intro hj _ _; omega
  | succ n ih =>
    intro hj hocc hmax
    unfold rfindBelow
    by_cases hn : j = n
    · subst hn
      rw [if_pos hocc]
    · have hjn : j < n := by omega
      rw [if_neg (by rw [hmax n hjn (by omega)]; simp)]
      exact ih hjn hocc (fun k h1 h2 => hmax k h1 (by omega))

theorem rfind_eq_some_of {pat s : List Nat} {j : Nat} (hp : pat ≠ [])
    (hocc : occursAt pat s j = true)
    (hmax : ∀ k, j < k → occursAt pat s k = false) : rfind pat s = some j := by
  unfold rfind
  have hj : j < s.length := by
    have h1 := occursAt_length hp hocc
    have h2 : 0 < pat.length := List.length_pos.mpr hp
    omega
  exact rfindBelow_eq_some_of hj hocc (fun k h1 _ => hmax k h1)

/-! No-occurrence predicate and its transfer along list operations. -/

/-- pat occurs nowhere in s (the embedding of "pat not in s"). -/
def NoOcc (pat s : List Nat) : Prop := ∀ i, occursAt pat s i = false

theorem noOcc_iff_findFrom {pat s : List Nat} (hp : pat ≠ []) :
    findFrom pat s 0 = none ↔ NoOcc pat s := by
  rw [findFrom_eq_none_iff hp]
  exact ⟨fun h i => h i (Nat.zero_le i), fun h j _ => h j⟩

theorem NoOcc.nil {pat : List Nat} (hp : pat ≠ []) : NoOcc pat [] := by
  intro i
  rw [occursAt_false_iff]
  intro t ht
  rw [List.drop_nil] at ht
  exact hp (List.append_eq_nil.mp ht.symm).1

theorem NoOcc.append_left {pat X Y : List Nat} (h : NoOcc pat (X ++ Y)) :
    NoOcc pat X := by
  intro i
  cases hx : occursAt pat X i with
  | false => rfl
  | true =>
    have h1 := @occursAt_append_left pat X Y i hx
    rw [h i] at h1
    exact absurd h1 (by simp)

theorem NoOcc.append_right {pat X Y : List Nat} (h : NoOcc pat (X ++ Y)) :
    NoOcc pat Y := by
  intro j
  cases hx : occursAt pat Y j with
  | false => rfl
  | true =>
    have h1 := @occursAt_append_right pat X Y j hx
    rw [h (X.length + j)] at h1
    exact absurd h1 (by simp)

/-- Appending one byte c that differs from the last byte of a three-byte
pattern cannot create a new occurrence of that pattern. -/
theorem NoOcc.snoc {pat M : List Nat} {c : Nat} (h3 : pat.length = 3)
    (h : NoOcc pat M) (hc : pat.getD 2 0 ≠ c) : NoOcc pat (M ++ [c]) := by
  intro i
  rw [occursAt_false_iff]
  intro t ht
  rw [List.drop_append_eq_append_drop] at ht
  rcases Nat.lt_or_ge i M.length with hi | hi
  · have h0 : i - M.length = 0 := by omega
    rw [h0, List.drop_zero] at ht
    have hlen := congrArg List.length ht
    simp only [List.length_append, List.length_drop, List.length_cons,
      List.length_nil, h3] at hlen
    rcases Nat.lt_or_ge (M.length - i) 3 with hsm | hbig
    · have hcase : M.length - i = 1 ∨ M.length - i = 2 := by omega
      obtain h2 | h2 := hcase
      · omega
      · have hdl : (M.drop i).length = 2 := by rw [List.length_drop]; exact h2
        obtain ⟨a, b, hab⟩ := List.length_eq_two.mp hdl
        have ht0 : t.length = 0 := by omega
        have ht0e : t = [] := List.length_eq_zero.mp ht0
        rw [hab, ht0e, List.append_nil] at ht
        obtain ⟨p0, p1, p2, hpat⟩ := List.length_eq_three.mp h3
        rw [hpat] at ht
        simp only [List.cons_append, List.nil_append, List.cons.injEq] at ht
        apply hc
        rw [hpat, ht.2.2.1]
        simp
    · have htake := congrArg (List.take 3) ht
      have hdl : 3 ≤ (M.drop i).length := by rw [List.length_drop]; omega
      have hrhs : (pat ++ t).take 3 = pat := by
        rw [← h3]
        exact List.take_left pat t
      rw [List.take_append_of_le_length hdl, hrhs] at htake
      have hocc : occursAt pat M i = true := by
        unfold occursAt
        rw [decide_eq_true_eq, h3]
        exact htake
      rw [h i] at hocc
      exact absurd hocc (by simp)
  · have hM0 : M.drop i = [] := List.drop_eq_nil_of_le hi
    rw [hM0, List.nil_append] at ht
    have hlen := congrArg List.length ht
    simp only [List.length_append, List.length_drop, List.length_cons,
      List.length_nil, h3] at hlen
    omega

/-- Prefixing the start flag cannot create a stop-flag occurrence. -/
theorem noOcc_STOP_prepend {M : List Nat} (h : NoOcc STOP M) :
    NoOcc STOP (START ++ M) := by
  intro i
  match i with
  | 0 => exact rfl
  | 1 => exact rfl
  | 2 => exact rfl
  | (j + 3) =>
    rw [occursAt_start_shift]
    exact h j

/-- The start flag occurs in START ++ M only at index 0 when it does not
occur in M. -/
theorem noOcc_START_prepend_pos {M : List Nat} (h : NoOcc START M) :
    ∀ i, 0 < i → occursAt START (START ++ M) i = false := by
  intro i hi
  match i with
  | 0 => omega
  | 1 => exact rfl
  | 2 => exact rfl
  | (j + 3) =>
    rw [occursAt_start_shift]
    exact h j

/-- In a buffer of the form P ++ STOP ++ rest with no stop flag inside P,
the stop flag does not occur at any index below the length of P. -/
theorem noOcc_STOP_before_flag {P rest : List Nat} (hE : NoOcc STOP P) :
    ∀ j, j < P.length → occursAt STOP (P ++ (STOP ++ rest)) j = false := by
  intro j hj
  rw [occursAt_false_iff]
  intro t ht
  rw [List.drop_append_eq_append_drop, show j - P.length = 0 by omega,
    List.drop_zero] at ht
  rcases Nat.lt_or_ge (P.length - j) 3 with hsm | hbig
  · have hcase : P.length - j = 1 ∨ P.length - j = 2 := by omega
    obtain h2 | h2 := hcase
    · obtain ⟨a, ha⟩ := List.length_eq_one.mp (by rw [List.length_drop]; exact h2)
      rw [ha] at ht
      simp [STOP, List.cons_append] at ht
    · obtain ⟨a, b, hab⟩ := List.length_eq_two.mp (by rw [List.length_drop]; exact h2)
      rw [hab] at ht
      simp [STOP, List.cons_append] at ht
  · have htake := congrArg (List.take 3) ht
    have hdl : 3 ≤ (P.drop j).length := by rw [List.length_drop]; omega
    have hrhs : (STOP ++ t).take 3 = STOP := List.take_left STOP t
    rw [List.take_append_of_le_length hdl, hrhs] at htake
    have hocc : occursAt STOP P j = true := by
      unfold occursAt
      rw [decide_eq_true_eq, STOP_length]
      exact htake
    rw [hE j] at hocc
    exact absurd hocc (by simp)

/-! The three quiescent or extracting behaviours of one framing step. -/

/-- When the buffer holds no start flag, one step either clears it (when
longer than ten start-flag lengths) or leaves it unchanged, and delivers
nothing. -/
theorem rxStep_noStart {mtu : Nat} {buf : List Nat}
    (h : findFrom START buf 0 = none) :
    rxStep mtu buf =
      if buf.length > 10 * START.length then ([], none) else (buf, none) := by
  unfold rxStep
  rw [h]

/-- A buffer consisting of the start flag followed by bytes containing
neither flag is left unchanged by one framing step (whether or not it is
over the MTU, since the last start flag is then the one at index 0). -/
theorem rxStep_midframe {mtu : Nat} {M : List Nat}
    (hS : NoOcc START M) (hE : NoOcc STOP M) :
    rxStep mtu (START ++ M) = (START ++ M, none) := by
  have hstart : findFrom START (START ++ M) 0 = some 0 := by
    apply (findFrom_eq_some_iff (by decide)).mpr
    exact ⟨Nat.le_refl 0, rfl, fun k h1 h2 => by omega⟩
  have hstop : findFrom STOP (START ++ M) 0 = none := by
    apply (findFrom_eq_none_iff (by decide)).mpr
    intro j _
    exact noOcc_STOP_prepend hE j
  have hocc0 : occursAt START (START ++ M) 0 = true := rfl
  have hr : rfind START (START ++ M) = some 0 := by
    apply rfind_eq_some_of (by decide) hocc0
    intro k hk
    exact noOcc_START_prepend_pos hS k hk
  unfold rxStep
  simp only [hstart, hstop]
  by_cases hlen : (START ++ M).length > mtu
  · rw [if_pos hlen, hr]
    rfl
  · rw [if_neg hlen]

/-- One framing step on a buffer holding a complete well-formed frame at
the front extracts exactly its payload and consumes the buffer through the
stop flag. -/
theorem rxStep_frame {mtu : Nat} {P rest : List Nat} (hne : P ≠ [])
    (hlen : P.length ≤ mtu) (hE : NoOcc STOP P) :
    rxStep mtu (START ++ P ++ STOP ++ rest) = (rest, some P) := by
  have hPpos : 0 < P.length := List.length_pos.mpr hne
  have hocc0 : occursAt START (START ++ P ++ STOP ++ rest) 0 = true := rfl
  have hstart : findFrom START (START ++ P ++ STOP ++ rest) 0 = some 0 := by
    apply (findFrom_eq_some_iff (by decide)).mpr
    exact ⟨Nat.le_refl 0, hocc0, fun k h1 h2 => by omega⟩
  have hoccE : occursAt STOP (START ++ P ++ STOP ++ rest) (P.length + 3) = true := by
    rw [List.append_assoc (START ++ P) STOP rest]
    have h1 : occursAt STOP (STOP ++ rest) 0 = true := rfl
    have h2 := @occursAt_append_right STOP (START ++ P) (STOP ++ rest) 0 h1
    rwa [show (START ++ P).length + 0 = P.length + 3 from by
      simp [List.length_append, START_length]; omega] at h2
  obtain ⟨t0, hstop0⟩ :
      ∃ t0, findFrom STOP (START ++ P ++ STOP ++ rest) 0 = some t0 := by
    rcases hcase : findFrom STOP (START ++ P ++ STOP ++ rest) 0 with _ | t0
    · exfalso
      rw [findFrom_eq_none_iff (by decide)] at hcase
      have hfalse := hcase (P.length + 3) (by omega)
      rw [hfalse] at hoccE
      exact absurd hoccE (by simp)
    · exact ⟨t0, rfl⟩
  have hstop3 : findFrom STOP (START ++ P ++ STOP ++ rest) 3 = some (P.length + 3) := by
    apply (findFrom_eq_some_iff (by decide)).mpr
    refine ⟨by omega, hoccE, ?_⟩
    intro k h3k hkP
    obtain ⟨j, rfl⟩ : ∃ j, k = j + 3 := ⟨k - 3, by omega⟩
    have hj : j < P.length := by omega
    calc occursAt STOP (START ++ P ++ STOP ++ rest) (j + 3)
        = occursAt STOP (P ++ (STOP ++ rest)) j := by
          rw [List.append_assoc (START ++ P) STOP rest,
            List.append_assoc START P (STOP ++ rest)]
          exact occursAt_start_shift
      _ = false := noOcc_STOP_before_flag hE j hj
  have hdata : List.drop 3 (List.take (P.length + 3) (START ++ P ++ STOP ++ rest)) = P := by
    rw [List.append_assoc (START ++ P) STOP rest,
      show P.length + 3 = (START ++ P).length from by
        simp [List.length_append, START_length]; omega,
      List.take_left]
    exact List.drop_left START P
  have hbuf : List.drop (P.length + 3 + STOP.length) (START ++ P ++ STOP ++ rest) = rest := by
    rw [STOP_length,
      show P.length + 3 + 3 = (START ++ P ++ STOP).length from by
        simp [List.length_append, START_length, STOP_length]; omega]
    exact List.drop_left (START ++ P ++ STOP) rest
  unfold rxStep
  simp only [hstart, hstop0, Nat.zero_add, START_length, hstop3]
  rw [if_pos (by omega : 3 < P.length + 3), hdata, hbuf, if_pos hlen]

/-! The receive loop over a byte stream. -/

theorem rxRun_nil {mtu : Nat} {buf : List Nat} : rxRun mtu buf [] = (buf, []) := rfl

theorem rxRun_cons {mtu : Nat} {buf : List Nat} {b : Nat} {s : List Nat} :
    rxRun mtu buf (b :: s) =
      ((rxRun mtu (rxPass mtu buf b).1 s).1,
        (rxPass mtu buf b).2.toList ++ (rxRun mtu (rxPass mtu buf b).1 s).2) := rfl

theorem rxRun_append {mtu : Nat} : ∀ (xs ys buf : List Nat),
    rxRun mtu buf (xs ++ ys) =
      ((rxRun mtu (rxRun mtu buf xs).1 ys).1,
        (rxRun mtu buf xs).2 ++ (rxRun mtu (rxRun mtu buf xs).1 ys).2) := by
  intro xs
  induction xs with
  | nil =>
    intro ys buf
    rw [List.nil_append, rxRun_nil]
    simp
  | cons b xs ih =>
    intro ys buf
    rw [List.cons_append, rxRun_cons, rxRun_cons, ih]
    simp [List.append_assoc]

/-- Feeding bytes that never complete a flag while the buffer starts with
the start flag only accumulates them. -/
theorem rxRun_midframe {mtu : Nat} :
    ∀ (R Q : List Nat), NoOcc START (Q ++ R) → NoOcc STOP (Q ++ R) →
      (∀ b ∈ R, b < 128) →
      rxRun mtu (START ++ Q) R = (START ++ (Q ++ R), []) := by
  intro R
  induction R with
  | nil =>
    intro Q _ _ _
    rw [rxRun_nil, List.append_nil]
  | cons b R ih =>
    intro Q hS hE hb
    have hb0 : b < 128 := hb b (List.mem_cons_self b R)
    have hQb : Q ++ b :: R = (Q ++ [b]) ++ R := by simp
    rw [hQb] at hS hE
    have hpass : rxPass mtu (START ++ Q) b = (START ++ (Q ++ [b]), none) := by
      unfold rxPass validate
      rw [if_pos hb0, List.append_assoc]
      exact rxStep_midframe hS.append_left hE.append_left
    rw [rxRun_cons, hpass]
    have hrest := ih (Q ++ [b]) hS hE (fun x hx => hb x (List.mem_cons_of_mem b hx))
    rw [hrest, ← hQb]
    simp

/-- End-to-end delivery of one well-formed nonempty ASCII frame fed
byte by byte into an empty buffer. -/
theorem rxRun_frame_delivery {mtu : Nat} (P : List Nat) (hne : P ≠ [])
    (hlen : P.length ≤ mtu) (hascii : ∀ b ∈ P, b < 128)
    (hS : NoOcc START P) (hE : NoOcc STOP P) :
    rxRun mtu [] (START ++ P ++ STOP) = ([], [P]) := by
  have hsplit : START ++ P ++ STOP = [124, 45] ++ ([62] ++ (P ++ [60, 45] ++ [124])) := by
    simp [START, STOP]
  have h1 : rxRun mtu [] [124, 45] = ([124, 45], []) := rfl
  have hpass62 : rxPass mtu [124, 45] 62 = (START, none) := by
    show rxStep mtu ([124, 45] ++ validate 62) = (START, none)
    have he : [124, 45] ++ validate 62 = START ++ [] := by decide
    rw [he, rxStep_midframe (NoOcc.nil (by decide)) (NoOcc.nil (by decide)),
      List.append_nil]
  have h2 : rxRun mtu [124, 45] [62] = (START, []) := by
    rw [rxRun_cons, hpass62, rxRun_nil]
    rfl
  have hS2 : NoOcc START (P ++ [60, 45]) := by
    have hx : NoOcc START ((P ++ [60]) ++ [45]) :=
      NoOcc.snoc rfl (NoOcc.snoc rfl hS (by decide)) (by decide)
    rwa [List.append_assoc] at hx
  have hE2 : NoOcc STOP (P ++ [60, 45]) := by
    have hx : NoOcc STOP ((P ++ [60]) ++ [45]) :=
      NoOcc.snoc rfl (NoOcc.snoc rfl hE (by decide)) (by decide)
    rwa [List.append_assoc] at hx
  have h3 : rxRun mtu START (P ++ [60, 45]) = (START ++ (P ++ [60, 45]), []) := by
    have hx := @rxRun_midframe mtu (P ++ [60, 45]) [] (by simpa using hS2)
      (by simpa using hE2)
      (by
        intro b hb
        rcases List.mem_append.mp hb with h | h
        · exact hascii b h
        · simp at h
          rcases h with h | h <;> omega)
    rwa [List.append_nil, List.nil_append] at hx
  have hpass124 : rxPass mtu (START ++ (P ++ [60, 45])) 124 = ([], some P) := by
    show rxStep mtu (START ++ (P ++ [60, 45]) ++ validate 124) = ([], some P)
    have he : START ++ (P ++ [60, 45]) ++ validate 124 = START ++ P ++ STOP ++ [] := by
      simp [STOP, validate]
    rw [he, rxStep_frame hne hlen hE]
  have h4 : rxRun mtu (START ++ (P ++ [60, 45])) [124] = ([], [P]) := by
    rw [rxRun_cons, hpass124, rxRun_nil]
    rfl
  rw [hsplit, rxRun_append, h1, rxRun_append, h2, rxRun_append, h3, h4]
  rfl

/-! Buffer boundedness when no start flag ever enters the buffer. -/

theorem rxRun_bounded_noStart {mtu : Nat} :
    ∀ (s buf : List Nat), buf.length ≤ 10 * START.length →
      NoOcc START (buf ++ s.filter (fun b => decide (b < 128))) →
      ((rxRun mtu buf s).1).length ≤ 10 * START.length := by
  intro s
  induction s with
  | nil => intro buf h _; exact h
  | cons b s ih =>
    intro buf hlen hno
    have hfc : (b :: s).filter (fun b => decide (b < 128)) =
        validate b ++ s.filter (fun b => decide (b < 128)) := by
      by_cases hb : b < 128 <;> simp [List.filter_cons, validate, hb]
    have hno2 : NoOcc START ((buf ++ validate b) ++ s.filter (fun b => decide (b < 128))) := by
      rwa [hfc, ← List.append_assoc] at hno
    have hfind : findFrom START (buf ++ validate b) 0 = none :=
      (noOcc_iff_findFrom (by decide)).mpr hno2.append_left
    rw [rxRun_cons]
    show ((rxRun mtu (rxStep mtu (buf ++ validate b)).1 s).1).length ≤ 10 * START.length
    rw [rxStep_noStart hfind]
    by_cases h30 : (buf ++ validate b).length > 10 * START.length
    · rw [if_pos h30]
      exact ih [] (by simp) (by simpa using hno2.append_right)
    · rw [if_neg h30]
      exact ih (buf ++ validate b) (by omega) hno2

/-! Every byte that reaches the buffer or a delivered payload is ASCII. -/

theorem rxStep_sub {mtu : Nat} {buf : List Nat} :
    (∀ x ∈ (rxStep mtu buf).1, x ∈ buf) ∧
      ∀ L, (rxStep mtu buf).2 = some L → ∀ x ∈ L, x ∈ buf := by
  rcases h1 : findFrom START buf 0 with _ | s0
  · rw [rxStep_noStart h1]
    by_cases h30 : buf.length > 10 * START.length
    · rw [if_pos h30]
      exact ⟨fun x hx => absurd hx (List.not_mem_nil x), fun L hL => by cases hL⟩
    · rw [if_neg h30]
      exact ⟨fun x hx => hx, fun L hL => by cases hL⟩
  · rcases h2 : findFrom STOP buf 0 with _ | t0
    · have hstep : rxStep mtu buf =
          if buf.length > mtu then
            (match rfind START buf with
              | some r => (buf.drop r, none)
              | none => (buf.drop (buf.length - 1), none))
          else (buf, none) := by
        unfold rxStep
        simp only [h1, h2]
      rw [hstep]
      by_cases hm : buf.length > mtu
      · rw [if_pos hm]
        rcases rfind START buf with _ | r
        · exact ⟨fun x hx => List.mem_of_mem_drop hx, fun L hL => by cases hL⟩
        · exact ⟨fun x hx => List.mem_of_mem_drop hx, fun L hL => by cases hL⟩
      · rw [if_neg hm]
        exact ⟨fun x hx => hx, fun L hL => by cases hL⟩
    · rcases h3 : findFrom STOP buf (s0 + START.length) with _ | e
      · have hstep : rxStep mtu buf =
            (buf.drop (s0 + START.length + START.length), none) := by
          unfold rxStep
          simp only [h1, h2, h3]
        rw [hstep]
        exact ⟨fun x hx => List.mem_of_mem_drop hx, fun L hL => by cases hL⟩
      · by_cases he : s0 + START.length < e
        · by_cases hm : (List.drop (s0 + START.length) (List.take e buf)).length ≤ mtu
          · have hstep : rxStep mtu buf =
                (buf.drop (e + STOP.length),
                  some (List.drop (s0 + START.length) (List.take e buf))) := by
              unfold rxStep
              simp only [h1, h2, h3]
              rw [if_pos he, if_pos hm]
            rw [hstep]
            refine ⟨fun x hx => List.mem_of_mem_drop hx, fun L hL => ?_⟩
            injection hL with hL
            subst hL
            exact fun x hx => List.mem_of_mem_take (List.mem_of_mem_drop hx)
          · have hstep : rxStep mtu buf = (buf.drop (e + STOP.length), none) := by
              unfold rxStep
              simp only [h1, h2, h3]
              rw [if_pos he, if_neg hm]
            rw [hstep]
            exact ⟨fun x hx => List.mem_of_mem_drop hx, fun L hL => by cases hL⟩
        · have hstep : rxStep mtu buf =
              (buf.drop (s0 + START.length + START.length), none) := by
            unfold rxStep
            simp only [h1, h2, h3]
            rw [if_neg he]
          rw [hstep]
          exact ⟨fun x hx => List.mem_of_mem_drop hx, fun L hL => by cases hL⟩

theorem rxRun_ascii {mtu : Nat} :
    ∀ (s buf : List Nat), (∀ x ∈ buf, x < 128) →
      ∀ L ∈ (rxRun mtu buf s).2, ∀ x ∈ L, x < 128 := by
  intro s
  induction s with
  | nil =>
    intro buf _ L hL
    rw [rxRun_nil] at hL
    cases hL
  | cons b s ih =>
    intro buf hbuf L hL x hx
    rw [rxRun_cons] at hL
    have hnb : ∀ y ∈ buf ++ validate b, y < 128 := by
      intro y hy
      rcases List.mem_append.mp hy with h | h
      · exact hbuf y h
      · unfold validate at h
        by_cases hb : b < 128
        · rw [if_pos hb] at h
          simp at h
          omega
        · rw [if_neg hb] at h
          cases h
    rcases List.mem_append.mp hL with h | h
    · rcases ho : (rxPass mtu buf b).2 with _ | L0
      · rw [ho] at h
        cases h
      · rw [ho] at h
        simp at h
        subst h
        exact hnb x (rxStep_sub.2 L ho x hx)
    · exact ih (rxPass mtu buf b).1
        (fun y hy => hnb y (rxStep_sub.1 y hy)) L h x hx

/-! Lifecycle and send-path model of the MiniModem and Modem classes. -/

/-- Operating mode of a MiniModem instance (module constants RX and TX). -/
inductive Mode
  | rx
  | tx

/-- Observable state of the external minimodem subprocess held in
MiniModem.process: whether it is still running, and the bytes written to
its stdin pipe so far. -/
structure Proc where
  alive : Bool
  stdin_data : List Nat

/-- Python exceptions raised on the modelled paths.  The constructor
directionMismatch stands for the DirectionMismatch error named by the
specification; it exists here only so that its absence from the code
paths is statable. -/
inductive PyError
  | typeError
  | attributeError
  | directionMismatch

/-- State of a MiniModem instance: the fixed operating mode, the online
flag, the subprocess (none before the first start), and a count of
subprocess creations (each subprocess.Popen call increments it). -/
structure MMState where
  mode : Mode
  online : Bool
  process : Option Proc
  spawn_count : Nat

/-- MiniModem.__init__ with start=False: online is False and no
subprocess exists yet. -/
def MiniModem.init (m : Mode) : MMState :=
  { mode := m, online := false, process := none, spawn_count := 0 }

/-- MiniModem.start: guarded by the online flag; when offline, a fresh
subprocess is created (new pipes) and the flag is set. -/
def MiniModem.start (s : MMState) : MMState :=
  if s.online then s
  else
    { s with
      online := true
      process := some { alive := true, stdin_data := [] }
      spawn_count := s.spawn_count + 1 }

/-- MiniModem.stop: clears the online flag, then calls
self.process.terminate() (and later possibly kill).  There is no guard:
on a never-started instance self.process is None, so the attribute access
raises (modelled as attributeError) after the flag was already cleared;
terminating an already-exited process is harmless. -/
def MiniModem.stop (s : MMState) : MMState × Option PyError :=
  match s.process with
  | none => ({ s with online := false }, some PyError.attributeError)
  | some p =>
    ({ s with online := false, process := some { p with alive := false } }, none)

/-- MiniModem.send: writes the bytes to self.process.stdin and flushes.
The mode field is never consulted — there is no direction check. -/
def MiniModem.send (s : MMState) (d : List Nat) : MMState × Option PyError :=
  match s.process with
  | none => (s, some PyError.attributeError)
  | some p =>
    ({ s with process := some { p with stdin_data := p.stdin_data ++ d } }, none)

/-- State of a Modem instance: the RX and TX MiniModem instances, the
online flag, and the number of receive-loop threads spawned so far
(Modem.start spawns one on every call). -/
structure ModemState where
  rx : MMState
  tx : MMState
  online : Bool
  job_threads : Nat

/-- Modem.__init__ with start=False. -/
def Modem.init : ModemState :=
  { rx := MiniModem.init Mode.rx, tx := MiniModem.init Mode.tx,
    online := false, job_threads := 0 }

/-- Modem.start: starts both channels (each individually guarded by its
own online flag), sets the link online flag, and unconditionally spawns a
new receive-loop thread. -/
def Modem.start (m : ModemState) : ModemState :=
  { m with
    rx := MiniModem.start m.rx
    tx := MiniModem.start m.tx
    online := true
    job_threads := m.job_threads + 1 }

/-- Modem.stop: clears the online flag and stops both channels on daemon
threads; an exception inside such a thread is swallowed and never reaches
the caller, so Modem.stop itself raises nothing. -/
def Modem.stop (m : ModemState) : ModemState :=
  { m with
    online := false
    rx := (MiniModem.stop m.rx).1
    tx := (MiniModem.stop m.tx).1 }

/-- Python values a caller may pass to Modem.send; the code checks
type(data) against bytes. -/
inductive PyObj
  | pbytes (d : List Nat)
  | pstr (s : String)
  | pint (n : Int)

/-- Modem.send: raises TypeError unless the payload is bytes, otherwise
wraps it in the HDLC flags and forwards the result to the TX channel. -/
def Modem.send (m : ModemState) (p : PyObj) : ModemState × Option PyError :=
  match p with
  | PyObj.pbytes d =>
    let r := MiniModem.send m.tx (START ++ d ++ STOP)
    ({ m with tx := r.1 }, r.2)
  | _ => (m, some PyError.typeError)

/-- A modem whose channels have been started: both subprocesses running
and one receive-loop thread spawned. -/
def modemRunning : ModemState := Modem.start Modem.init

/-- A receive-direction channel that has been started. -/
def mmRxRunning : MMState := MiniModem.start (MiniModem.init Mode.rx)

/-! Claim theorems. -/

/-- Claim C1, counterexample: the empty payload satisfies every hypothesis
of the claim as stated (length 0 is at most the MTU, it contains neither
flag, and noise is optional), yet feeding START ++ STOP delivers nothing:
extraction requires end > start, so the empty frame is silently discarded
instead of being delivered exactly once. -/
theorem c1_counterexample :
    (rxRun 500 [] (START ++ ([] : List Nat) ++ STOP)).2 = [] ∧
      ([] : List (List Nat)) ≠ [([] : List Nat)] := by
  decide

/-- Claim C1 (amended): for every nonempty payload P of bytes below 0x80,
of length at most the MTU and containing no occurrence of either flag,
feeding exactly START ++ P ++ STOP byte by byte into an empty buffer
results in the callback receiving exactly P, exactly once.  (The
amendments are forced by the code: the empty payload is never delivered
since extraction requires end > start; a byte at or above 0x80 inside P
is dropped by the validation step; and surrounding noise can prevent
delivery, for example a noise suffix 60, 45 immediately before the start
flag, or 29 or more flag-free noise bytes, make the loop discard the
frame, so the claim holds with no surrounding noise.) -/
theorem c1_theorem {mtu : Nat} (P : List Nat) (hne : P ≠ [])
    (hlen : P.length ≤ mtu) (hascii : ∀ b ∈ P, b < 128)
    (hS : findFrom START P 0 = none) (hE : findFrom STOP P 0 = none) :
    rxRun mtu [] (START ++ P ++ STOP) = ([], [P]) :=
  rxRun_frame_delivery P hne hlen hascii
    ((noOcc_iff_findFrom (by decide)).mp hS)
    ((noOcc_iff_findFrom (by decide)).mp hE)

/-- Witness for C1: payload [104, 105] with the default MTU 500. -/
theorem c1_witness :
    rxRun 500 [] (START ++ [104, 105] ++ STOP) = ([], [[104, 105]]) :=
  c1_theorem [104, 105] (by decide) (by decide) (by decide) (by decide) (by decide)

/-- Claim C2, counterexample: a buffer holding two complete frames.  One
receive-loop pass applies the framing rules once: only the first frame is
extracted, and a complete extractable frame remains in the buffer at the
end of the pass (the following pass extracts it). -/
theorem c2_counterexample :
    rxStep 500 (START ++ [97] ++ STOP ++ (START ++ [98] ++ STOP)) =
      (START ++ [98] ++ STOP, some [97]) ∧
      rxStep 500 (START ++ [98] ++ STOP) = ([], some [98]) := by
  decide

/-- Claim C2 (amended): within a single receive-loop pass the framing
rules are applied exactly once, not repeatedly: a buffer containing two
complete frames has only the first extracted and dispatched in that pass,
the second remaining in the buffer, to be extracted by the following
pass. -/
theorem c2_theorem {mtu : Nat} (A B : List Nat) (hA : A ≠ [])
    (hAlen : A.length ≤ mtu) (hAE : findFrom STOP A 0 = none)
    (hB : B ≠ []) (hBlen : B.length ≤ mtu) (hBE : findFrom STOP B 0 = none) :
    rxStep mtu (START ++ A ++ STOP ++ (START ++ B ++ STOP)) =
      (START ++ B ++ STOP, some A) ∧
      rxStep mtu (START ++ B ++ STOP) = ([], some B) := by
  constructor
  · exact rxStep_frame hA hAlen ((noOcc_iff_findFrom (by decide)).mp hAE)
  · have h := @rxStep_frame mtu B [] hB hBlen
      ((noOcc_iff_findFrom (by decide)).mp hBE)
    rwa [List.append_nil] at h

/-- Witness for C2 at the frames [104] and [105] with MTU 500. -/
theorem c2_witness :
    rxStep 500 (START ++ [104] ++ STOP ++ (START ++ [105] ++ STOP)) =
      (START ++ [105] ++ STOP, some [104]) ∧
      rxStep 500 (START ++ [105] ++ STOP) = ([], some [105]) :=
  c2_theorem [104] [105] (by decide) (by decide) (by decide) (by decide)
    (by decide) (by decide)

/-- Claim C3, counterexample: buffer STOP ++ START ++ [97, 98, 99].  The
first start flag ends at index 6 and no stop flag occurs at or after it,
so the malformed branch runs.  The claim says exactly the prefix through
the end of the start flag is discarded, which would leave [97, 98, 99];
the code discards through start + len(START) = 9, leaving the empty
buffer, and performs no further scan in the same pass. -/
theorem c3_counterexample :
    rxStep 500 (STOP ++ START ++ [97, 98, 99]) = ([], none) ∧
      (STOP ++ START ++ [97, 98, 99]).drop 6 = [97, 98, 99] := by
  decide

/-- Claim C3 (amended): when the buffer contains both flags but the first
stop flag at or after the end of the first start flag is missing or abuts
it (end ≤ start in the code, where a missed find is -1), the step
discards the prefix up to the end of the located start flag plus one
further start-flag length of bytes — through index s0 + 2 len(START) —
and delivers nothing; the remainder is only rescanned on the following
pass, after the next blocking byte read. -/
theorem c3_theorem {mtu : Nat} (buf : List Nat) (s0 t0 : Nat)
    (hs : findFrom START buf 0 = some s0)
    (ht : findFrom STOP buf 0 = some t0)
    (hmal : findFrom STOP buf (s0 + START.length) = none ∨
      findFrom STOP buf (s0 + START.length) = some (s0 + START.length)) :
    rxStep mtu buf = (buf.drop (s0 + START.length + START.length), none) := by
  unfold rxStep
  rcases hmal with h | h
  · simp only [hs, ht, h]
  · simp only [hs, ht, h]
    rw [if_neg (by omega)]

/-- Witness for C3 at the buffer STOP ++ START (all six bytes vanish). -/
theorem c3_witness : rxStep 500 (STOP ++ START) = ([], none) := by
  have h := @c3_theorem 500 (STOP ++ START) 3 0 (by decide) (by decide)
    (Or.inl (by decide))
  rw [h]
  decide

/-- Claim C4, counterexample: buffer STOP ++ START ++ [97, 97, 97, 97]
with MTU 3.  It contains a start flag (at index 3), no stop flag occurs
after that start flag, and the buffer length 10 exceeds the MTU, so the
claim requires truncation to the last start flag, which would leave
START ++ [97, 97, 97, 97].  But a stop flag occurs earlier in the buffer,
so the code takes the delimiter branch instead and discards through
start + len(START), leaving [97]. -/
theorem c4_counterexample :
    rxStep 3 (STOP ++ START ++ [97, 97, 97, 97]) = ([97], none) ∧
      rfind START (STOP ++ START ++ [97, 97, 97, 97]) = some 3 ∧
      (STOP ++ START ++ [97, 97, 97, 97]).drop 3 ≠ [97] := by
  decide

/-- Claim C4 (amended): the truncate-to-last-start rule fires only when no
stop flag occurs anywhere in the buffer, not merely none after the start
flag: in that case, when the buffer length exceeds the MTU, the step
truncates the buffer to begin at the last start-flag occurrence and
delivers nothing. -/
theorem c4_theorem {mtu : Nat} (buf : List Nat) (s0 r : Nat)
    (hs : findFrom START buf 0 = some s0)
    (ht : findFrom STOP buf 0 = none)
    (hlen : buf.length > mtu)
    (hr : rfind START buf = some r) :
    rxStep mtu buf = (buf.drop r, none) := by
  unfold rxStep
  simp only [hs, ht]
  rw [if_pos hlen, hr]

/-- Witness for C4 with MTU 5 and buffer START ++ [97] ++ START of
length 7: truncation to the last start flag at index 4. -/
theorem c4_witness :
    rxStep 5 (START ++ [97] ++ START) = ((START ++ [97] ++ START).drop 4, none) :=
  c4_theorem (START ++ [97] ++ START) 0 4 (by decide) (by decide) (by decide)
    (by decide)

/-- Claim C5: a frame candidate — the slice strictly between the first
start flag and the first stop flag at or after it — whose length exceeds
the MTU is dropped with no callback delivery, and the buffer is left
positioned immediately after the consumed stop flag, so the candidate is
never reprocessed. -/
theorem c5_theorem {mtu : Nat} (buf : List Nat) (s0 e : Nat)
    (hs : findFrom START buf 0 = some s0)
    (he : findFrom STOP buf (s0 + START.length) = some e)
    (hover : mtu < e - (s0 + START.length)) :
    rxStep mtu buf = (buf.drop (e + STOP.length), none) := by
  obtain ⟨he0, hocc, hmin⟩ := (findFrom_eq_some_iff (by decide)).mp he
  have hlt : s0 + START.length < e := by omega
  obtain ⟨t0, ht0⟩ : ∃ t0, findFrom STOP buf 0 = some t0 := by
    rcases hcase : findFrom STOP buf 0 with _ | t0
    · rw [findFrom_eq_none_iff (by decide)] at hcase
      rw [hcase e (by omega)] at hocc
      exact absurd hocc (by simp)
    · exact ⟨t0, rfl⟩
  have hbl := occursAt_length (by decide) hocc
  rw [STOP_length] at hbl
  have hdlen : (List.drop (s0 + START.length) (List.take e buf)).length =
      e - (s0 + START.length) := by
    rw [List.length_drop, List.length_take, Nat.min_eq_left (by omega)]
  unfold rxStep
  simp only [hs, ht0, he]
  rw [if_pos hlt, hdlen, if_neg (by omega)]

/-- Witness for C5 with MTU 2: the candidate [97, 97, 97] is over the
MTU, nothing is delivered, and the buffer is consumed through the stop
flag. -/
theorem c5_witness :
    rxStep 2 (START ++ [97, 97, 97] ++ STOP) =
      ((START ++ [97, 97, 97] ++ STOP).drop (6 + STOP.length), none) :=
  c5_theorem (START ++ [97, 97, 97] ++ STOP) 0 6 (by decide) (by decide)
    (by decide)

set_option maxRecDepth 8000 in
/-- Claim C6, counterexample: the raw input stream 124, 128, 45, 62
followed by 28 bytes 97 contains no start-flag occurrence, yet after
processing it the buffer holds 31 bytes, exceeding ten start-flag
lengths: the undecodable byte 128 is dropped by the validation step, so
the buffer receives 124, 45, 62 — a start flag the raw stream never
contained — and the no-start clearing rule stops applying. -/
theorem c6_counterexample :
    findFrom START ([124, 128, 45, 62] ++ List.replicate 28 97) 0 = none ∧
      ((rxRun 500 [] ([124, 128, 45, 62] ++ List.replicate 28 97)).1).length = 31 ∧
      10 * START.length < 31 := by
  decide

/-- Claim C6 (amended): for every input stream whose validated projection
— the bytes below 0x80, the ones that actually enter the buffer —
contains no start flag, the receive buffer never exceeds ten start-flag
lengths after any processing step (that is, after processing any prefix
of the stream). -/
theorem c6_theorem {mtu : Nat} (s t : List Nat)
    (hs : findFrom START (s.filter (fun b => decide (b < 128))) 0 = none)
    (ht : t <+: s) :
    ((rxRun mtu [] t).1).length ≤ 10 * START.length := by
  obtain ⟨u, rfl⟩ := ht
  have hno : NoOcc START ((t ++ u).filter (fun b => decide (b < 128))) :=
    (noOcc_iff_findFrom (by decide)).mp hs
  rw [List.filter_append] at hno
  exact rxRun_bounded_noStart t [] (by simp) (by simpa using hno.append_left)

/-- Witness for C6 on the stream [97, 98, 99] and its prefix [97, 98]. -/
theorem c6_witness :
    ((rxRun 500 [] [97, 98]).1).length ≤ 10 * START.length :=
  c6_theorem [97, 98, 99] [97, 98] (by decide) ⟨[99], rfl⟩

/-- Claim C7: Modem.send raises the invalid-payload error (the Python
TypeError; the specification names it InvalidPayloadType) exactly when
the payload is not a bytes value, and in that case the modem state is
unchanged and nothing is written to the TX channel; for a bytes payload d
on a started TX channel, exactly START ++ d ++ STOP is appended to the TX
subprocess stdin and no error is raised. -/
theorem c7_theorem (m : ModemState) (p : PyObj) :
    ((Modem.send m p).2 = some PyError.typeError ↔ ∀ d, p ≠ PyObj.pbytes d) ∧
      ((∀ d, p ≠ PyObj.pbytes d) → Modem.send m p = (m, some PyError.typeError)) ∧
      (∀ d q, p = PyObj.pbytes d → m.tx.process = some q →
        (Modem.send m p).2 = none ∧
          (Modem.send m p).1.tx.process =
            some { q with stdin_data := q.stdin_data ++ (START ++ d ++ STOP) } ∧
          (Modem.send m p).1.rx = m.rx ∧
          (Modem.send m p).1.online = m.online) := by
  rcases p with d | str | n
  · have hL : (Modem.send m (PyObj.pbytes d)).2 ≠ some PyError.typeError := by
      unfold Modem.send MiniModem.send
      rcases hq : m.tx.process with _ | q <;> simp
    refine ⟨iff_of_false hL (fun h => h d rfl), fun h => absurd rfl (h d), ?_⟩
    intro d2 q hpd hq
    have hd : d2 = d := by
      injection hpd with h
      exact h.symm
    subst hd
    unfold Modem.send MiniModem.send
    rw [hq]
    exact ⟨rfl, rfl, rfl, rfl⟩
  · refine ⟨iff_of_true rfl (fun _ h => PyObj.noConfusion h), fun _ => rfl, ?_⟩
    intro d q hpd _
    exact PyObj.noConfusion hpd
  · refine ⟨iff_of_true rfl (fun _ h => PyObj.noConfusion h), fun _ => rfl, ?_⟩
    intro d q hpd _
    exact PyObj.noConfusion hpd

/-- Witness for C7: a string payload is rejected with no state change,
and the payload b"hello" = [104, 101, 108, 108, 111] on a running modem
is accepted with no error. -/
theorem c7_witness :
    Modem.send modemRunning (PyObj.pstr "x") =
      (modemRunning, some PyError.typeError) ∧
      (Modem.send modemRunning (PyObj.pbytes [104, 101, 108, 108, 111])).2 = none :=
  ⟨(c7_theorem modemRunning (PyObj.pstr "x")).2.1 (fun _ h => PyObj.noConfusion h),
    ((c7_theorem modemRunning (PyObj.pbytes [104, 101, 108, 108, 111])).2.2
      [104, 101, 108, 108, 111] { alive := true, stdin_data := [] } rfl rfl).1⟩

/-- Claim C8, counterexample: a channel created with start=False is
already in the stopped state (online is false), yet stop() raises: the
code calls self.process.terminate() without any guard, and self.process
is None on a never-started channel. -/
theorem c8_counterexample :
    (MiniModem.init Mode.rx).online = false ∧
      (MiniModem.stop (MiniModem.init Mode.rx)).2 = some PyError.attributeError :=
  ⟨rfl, rfl⟩

/-- Claim C8 (amended): MiniModem.start on an already-running channel is
a no-op (guarded by the online flag, so no duplicate subprocess ever
arises); stop on a channel that was started and then stopped repeats the
termination sequence without error and without state change; but stop on
a never-started channel raises an error (self.process is None), and
Modem.start on an already-running link, while creating no duplicate
channel subprocess, unconditionally spawns one more receive-loop thread,
so it is not a no-op at the link level. -/
theorem c8_theorem (s : MMState) (m : ModemState) :
    (s.online = true → MiniModem.start s = s) ∧
      (∀ p, s.process = some p → s.online = false → p.alive = false →
        MiniModem.stop s = (s, none)) ∧
      (s.process = none → (MiniModem.stop s).2 = some PyError.attributeError) ∧
      (m.rx.online = true → m.tx.online = true →
        (Modem.start m).rx = m.rx ∧ (Modem.start m).tx = m.tx ∧
          (Modem.start m).job_threads = m.job_threads + 1) := by
  refine ⟨?_, ?_, ?_, ?_⟩
  · intro h
    unfold MiniModem.start
    rw [if_pos h]
  · intro p hp ho ha
    unfold MiniModem.stop
    rw [hp]
    rcases s with ⟨mo, onl, pr, sc⟩
    rcases p with ⟨al, sd⟩
    simp at ho ha hp
    simp [ho, ha, hp]
  · intro h
    unfold MiniModem.stop
    rw [h]
  · intro h1 h2
    unfold Modem.start MiniModem.start
    rw [if_pos h1, if_pos h2]
    exact ⟨rfl, rfl, rfl⟩

/-- Witness for C8: a started-then-stopped channel accepts a second stop
as a no-op with no error, and starting the already-running modem spawns a
second receive-loop thread. -/
theorem c8_witness :
    MiniModem.stop (MiniModem.stop mmRxRunning).1 =
      ((MiniModem.stop mmRxRunning).1, none) ∧
      (Modem.start modemRunning).job_threads = modemRunning.job_threads + 1 :=
  ⟨(c8_theorem (MiniModem.stop mmRxRunning).1 modemRunning).2.1
      { alive := false, stdin_data := [] } rfl rfl rfl,
    ((c8_theorem (MiniModem.stop mmRxRunning).1 modemRunning).2.2.2 rfl rfl).2.2⟩

/-- Claim C9, counterexample: send on a running receive-direction channel
raises nothing at all — in particular not DirectionMismatch — and the
bytes are written to the RX subprocess stdin: MiniModem.send performs no
direction check. -/
theorem c9_counterexample :
    mmRxRunning.mode = Mode.rx ∧ (MiniModem.send mmRxRunning [104]).2 = none :=
  ⟨rfl, rfl⟩

/-- Claim C9 (amended): MiniModem.send never consults the channel mode
and never raises a DirectionMismatch error: on any channel with a
subprocess — a receive-direction one included — it writes the bytes to
the subprocess stdin and returns no error; the symmetric receive on a
transmit-direction channel likewise performs the blocking read with no
direction check. -/
theorem c9_theorem (s : MMState) (d : List Nat) :
    (∀ p, s.process = some p →
      MiniModem.send s d =
        ({ s with process := some { p with stdin_data := p.stdin_data ++ d } }, none)) ∧
      (MiniModem.send s d).2 ≠ some PyError.directionMismatch := by
  constructor
  · intro p hp
    unfold MiniModem.send
    rw [hp]
  · unfold MiniModem.send
    rcases hp : s.process with _ | p <;> simp

/-- Witness for C9: sending two bytes on the running receive-direction
channel writes them to its stdin with no error. -/
theorem c9_witness :
    MiniModem.send mmRxRunning [104, 105] =
      ({ mmRxRunning with
          process := some { alive := true, stdin_data := [104, 105] } }, none) :=
  (c9_theorem mmRxRunning [104, 105]).1 { alive := true, stdin_data := [] } rfl

/-- Claim C10: the receive path reads one byte per step and validates it
by attempting a UTF-8 decode of that single byte, so every byte at or
above 0x80 contributes nothing to the buffer; consequently a payload
containing such a byte is never delivered intact to the callback, on any
input stream. -/
theorem c10_theorem :
    (∀ b, 128 ≤ b → validate b = []) ∧
      ∀ (mtu : Nat) (s P : List Nat) (b : Nat), b ∈ P → 128 ≤ b →
        P ∉ (rxRun mtu [] s).2 := by
  constructor
  · intro b hb
    unfold validate
    rw [if_neg (by omega)]
  · intro mtu s P b hbP hb hP
    have h := rxRun_ascii s [] (fun x hx => absurd hx (List.not_mem_nil x)) P hP b hbP
    omega

/-- Witness for C10: the payload [200] is never delivered, even when the
stream is exactly START ++ [200] ++ STOP. -/
theorem c10_witness :
    [200] ∉ (rxRun 500 [] (START ++ [200] ++ STOP)).2 :=
  c10_theorem.2 500 (START ++ [200] ++ STOP) [200] 200 (by decide) (by decide)

end Minimodem
